import Mathlib

/-!
Verification development for the libcqasm front-end library (cQASM parser and
semantic analyzer). The definitions below are a shallow embedding of the C++
sources: the primitive matrix type (include/cqasm-primitives.hpp), the type and
value domains (src/cqasm-types.tree, the semantic tree schema), the promoter
(src/cqasm-values.cpp), the resolver tables (src/cqasm-resolver.cpp and the
newer resolver translation unit that also defines MappingTable and
InstructionTable::resolve), the analyzer (src/cqasm-analyzer.cpp), and the
generic tree child containers (include/cqasm-tree.hpp).

Modelling conventions:
  - C++ exceptions become an explicit error type threaded through Except.
    error::AnalysisError and its catch sites keep their absorbing behavior;
    std::out_of_range (empty Maybe/One dereference, vector bound violations)
    and std::range_error (Matrix::at) are distinct constructors because the
    analyzer's catch blocks do not catch them.
  - IEEE doubles are modelled as rationals: the analyzed fragments only copy
    and widen numbers, never round.
  - Smart-pointer child slots become plain values; the null states that the
    code tests for are made explicit with Option.
-/

namespace Cqasm

/-- Axis primitive (include/cqasm-primitives.hpp): the closed enum X, Y, Z. -/
inductive Axis where
  | X
  | Y
  | Z
deriving DecidableEq, Repr

/-- Two-dimensional row-major matrix (class Matrix in
include/cqasm-primitives.hpp): data vector plus nrows and ncols. A matrix
constructed with the (nrows, ncols) constructor is zero-initialized with
nrows * ncols elements. -/
structure Mat (α : Type) where
  nrows : Nat
  ncols : Nat
  data : List α
deriving DecidableEq, Repr

/-- Analysis-time errors. Constructors mirror the distinct C++ exception
classes thrown by the analyzed code: error::AnalysisError carries a message;
resolver::NameResolutionFailure and resolver::OverloadResolutionFailure are the
resolver failures (they derive std::exception, not AnalysisError);
ConditionalExecutionNotSupported and QubitsNotUnique come from
InstructionTable::resolve; rangeError is the std::range_error thrown by
Matrix::at; outOfRange is the std::out_of_range thrown when an empty Maybe/One
is dereferenced or a vector .at bound fails; runtimeError is std::runtime_error
for logic-bug paths. -/
inductive Err where
  | analysisError (msg : String)
  | nameResolutionFailure
  | overloadResolutionFailure
  | conditionalExecutionNotSupported
  | qubitsNotUnique
  | rangeError
  | outOfRange
  | runtimeError (msg : String)
deriving DecidableEq, Repr

/-- Matrix read access (Matrix::at, include/cqasm-primitives.hpp lines 97-102):
row and col start at 1; a std::range_error is thrown when either index is out
of range; within range the element at data[(row-1)*ncols + col-1] is
returned. -/
def Mat.atE [Inhabited α] (m : Mat α) (row col : Nat) : Except Err α :=
  if 1 ≤ row ∧ row ≤ m.nrows ∧ 1 ≤ col ∧ col ≤ m.ncols then
    .ok (m.data.getD ((row - 1) * m.ncols + (col - 1)) default)
  else
    .error .rangeError

/-- Matrix write access (the mutable Matrix::at overload, lines 109-114): same
1-based bound check throwing std::range_error, then the element at row-major
position (row-1)*ncols + col-1 is replaced. -/
def Mat.setE (m : Mat α) (row col : Nat) (x : α) : Except Err (Mat α) :=
  if 1 ≤ row ∧ row ≤ m.nrows ∧ 1 ≤ col ∧ col ≤ m.ncols then
    .ok ⟨m.nrows, m.ncols, m.data.set ((row - 1) * m.ncols + (col - 1)) x⟩
  else
    .error .rangeError

/-- Type lattice (src/cqasm-types.tree): Qubit, Bool, Axis, Int, Real, Complex,
RealMatrix and ComplexMatrix with signed row/column counts where negative means
unconstrained, String and Json. -/
inductive Ty where
  | qubit
  | bool
  | axis
  | int
  | real
  | complex
  | realMatrix (num_rows num_cols : Int)
  | complexMatrix (num_rows num_cols : Int)
  | string
  | json
deriving DecidableEq, Repr

/-- Value domain (the value nodes of the semantic tree schema, part of
src/cqasm-values.hpp and the tree schema): compile-time constants for each
scalar and matrix type, plus the QubitRefs and BitRefs reference values whose
index field is a list of constant integers. Complex numbers are real/imaginary
pairs. -/
inductive Val where
  | constBool (value : Bool)
  | constAxis (value : Axis)
  | constInt (value : Int)
  | constReal (value : ℚ)
  | constComplex (re im : ℚ)
  | constRealMatrix (value : Mat ℚ)
  | constComplexMatrix (value : Mat (ℚ × ℚ))
  | constString (value : String)
  | constJson (value : String)
  | qubitRefs (index : List Int)
  | bitRefs (index : List Int)
deriving DecidableEq, Repr

/-- Modelled from the spec: the generated tree-node method clone() (emitted by
the tree code generator into cqasm-values-gen, which is not under src/)
produces an independent deep copy of a node. On this pure representation a
deep copy rebuilds the same structure constructor by constructor. -/
def Val.clone : Val → Val
  | .constBool b => .constBool b
  | .constAxis a => .constAxis a
  | .constInt n => .constInt n
  | .constReal r => .constReal r
  | .constComplex re im => .constComplex re im
  | .constRealMatrix m => .constRealMatrix ⟨m.nrows, m.ncols, m.data⟩
  | .constComplexMatrix m => .constComplexMatrix ⟨m.nrows, m.ncols, m.data⟩
  | .constString s => .constString s
  | .constJson s => .constJson s
  | .qubitRefs idx => .qubitRefs idx
  | .bitRefs idx => .bitRefs idx

/-- Modelled from the spec: values::type_of (declared in the generated values
code, not under src/; used by analyze_index). Section 3 of the specification
gives every value a type_of projection onto the type lattice, fixed by the
identity column of the promotion table in section 4.5: references map to Qubit
and Bool, each constant maps to its own type, and matrix constants carry their
actual dimensions. -/
def type_of : Val → Ty
  | .constBool _ => .bool
  | .constAxis _ => .axis
  | .constInt _ => .int
  | .constReal _ => .real
  | .constComplex _ _ => .complex
  | .constRealMatrix m => .realMatrix (m.nrows : Int) (m.ncols : Int)
  | .constComplexMatrix m => .complexMatrix (m.nrows : Int) (m.ncols : Int)
  | .constString _ => .string
  | .constJson _ => .json
  | .qubitRefs _ => .qubit
  | .bitRefs _ => .bool

/-- Widening copy of a real matrix into a complex matrix (promote,
src/cqasm-values.cpp lines 88-97): a zero-initialized complex matrix of the
same shape is filled position by position with complex(x, 0); row-major
position k holds element (row-1)*ncols + col-1 = k of the source. -/
def Mat.toComplex (m : Mat ℚ) : Mat (ℚ × ℚ) :=
  ⟨m.nrows, m.ncols, (List.range (m.nrows * m.ncols)).map (fun k => (m.data.getD k 0, 0))⟩

/-- One cell of the legacy flatten loop (promote, src/cqasm-values.cpp lines
115-117): with the running counter at index, the code reads
re = value.at(1, index++) and im = value.at(1, index++) through the 1-based
Matrix::at, so the columns actually passed are index and index + 1. -/
def legacyFillCell (m : Mat ℚ) (index : Nat) : Except Err (ℚ × ℚ) := do
  let re ← m.atE 1 index
  let im ← m.atE 1 (index + 1)
  .ok (re, im)

/-- The legacy flatten loop (promote, src/cqasm-values.cpp lines 111-119): a
size × size complex matrix is filled in row-major order; the counter index
starts at 0 and advances by two per cell, so cell k reads columns 2k and
2k + 1 of the source row vector. -/
def legacyFill (m : Mat ℚ) (size : Nat) : Except Err (Mat (ℚ × ℚ)) := do
  let data ← (List.range (size * size)).mapM (fun k => legacyFillCell m (2 * k))
  .ok ⟨size, size, data⟩

/-- The value computed into the local retval by the switch statement of
cqasm::values::promote (src/cqasm-values.cpp lines 17-138), case by case:
 - Qubit accepts QubitRefs; Bool accepts BitRefs and ConstBool; Axis, Int,
   String and Json accept only their own constant.
 - Real accepts ConstInt (widening) and ConstReal; Complex accepts ConstInt,
   ConstReal (widening) and ConstComplex.
 - RealMatrix accepts a ConstRealMatrix whose dimensions match, where a
   negative dimension in the type is unconstrained.
 - ComplexMatrix accepts a matching ConstComplexMatrix; a matching
   ConstRealMatrix is widened element-wise; otherwise, when the target is
   square with positive size N and the source is a 1 × (2 shifted left by 2N)
   row vector, the deprecated flatten loop runs (and its first Matrix::at call
   uses column 0, see legacyFillCell).
All other pairs leave retval empty. -/
def promoteRetval (value : Val) (type : Ty) : Except Err (Option Val) :=
  match type with
  | .qubit =>
      match value with
      | .qubitRefs idx => .ok (some (.qubitRefs idx))
      | _ => .ok none
  | .bool =>
      match value with
      | .bitRefs idx => .ok (some (.bitRefs idx))
      | .constBool b => .ok (some (.constBool b))
      | _ => .ok none
  | .axis =>
      match value with
      | .constAxis a => .ok (some (.constAxis a))
      | _ => .ok none
  | .int =>
      match value with
      | .constInt n => .ok (some (.constInt n))
      | _ => .ok none
  | .real =>
      match value with
      | .constInt n => .ok (some (.constReal (n : ℚ)))
      | .constReal r => .ok (some (.constReal r))
      | _ => .ok none
  | .complex =>
      match value with
      | .constInt n => .ok (some (.constComplex (n : ℚ) 0))
      | .constReal r => .ok (some (.constComplex r 0))
      | .constComplex re im => .ok (some (.constComplex re im))
      | _ => .ok none
  | .realMatrix num_rows num_cols =>
      match value with
      | .constRealMatrix m =>
          .ok (if ((m.nrows : Int) = num_rows ∨ num_rows < 0)
                  ∧ ((m.ncols : Int) = num_cols ∨ num_cols < 0)
               then some (.constRealMatrix m) else none)
      | _ => .ok none
  | .complexMatrix num_rows num_cols =>
      match value with
      | .constComplexMatrix m =>
          .ok (if ((m.nrows : Int) = num_rows ∨ num_rows < 0)
                  ∧ ((m.ncols : Int) = num_cols ∨ num_cols < 0)
               then some (.constComplexMatrix m) else none)
      | .constRealMatrix m =>
          if ((m.nrows : Int) = num_rows ∨ num_rows < 0)
              ∧ ((m.ncols : Int) = num_cols ∨ num_cols < 0) then
            .ok (some (.constComplexMatrix m.toComplex))
          else if num_rows = num_cols ∧ 0 < num_rows then
            let size : Nat := num_rows.toNat
            let num_elements : Nat := 2 <<< (2 * size)
            if m.nrows = 1 ∧ m.ncols = num_elements then do
              let cm ← legacyFill m size
              .ok (some (.constComplexMatrix cm))
            else .ok none
          else .ok none
      | _ => .ok none
  | .string =>
      match value with
      | .constString s => .ok (some (.constString s))
      | _ => .ok none
  | .json =>
      match value with
      | .constJson s => .ok (some (.constJson s))
      | _ => .ok none

/-- cqasm::values::promote (src/cqasm-values.cpp lines 15-147). The switch
fills the local retval (promoteRetval above); the function then copies source
location annotations into retval when it is non-empty, and falls through to
the final statement, which reads return Value(): the computed retval is
discarded and an empty value is returned on every path that does not throw.
Only the std::range_error raised inside the deprecated flatten loop escapes. -/
def promote (value : Val) (type : Ty) : Except Err (Option Val) := do
  let _retval ← promoteRetval value type
  .ok none

/-- Lowercasing helper (lowercase in the resolver translation unit,
src/unnamed/part_001 lines 15-21): std::tolower applied to every character,
written over the character list so that it evaluates by reduction. -/
def lowercase (name : String) : String :=
  ⟨name.data.map Char.toLower⟩

/-- Association-list view of std::unordered_map find: the first entry whose key
equals the requested key, if any. Keys are unique by construction because every
map in the analyzed code is only extended through insert, which refuses
duplicate keys. -/
def assocFind {β : Type} : List (String × β) → String → Option β
  | [], _ => none
  | (k, v) :: rest, key => if k = key then some v else assocFind rest key

/-- Association-list view of updating the mapped value of an existing key
(used where the C++ code mutates entry->second in place). -/
def assocUpdate {β : Type} : List (String × β) → String → β → List (String × β)
  | [], _, _ => []
  | (k, v) :: rest, key, nv =>
      if k = key then (k, nv) :: rest else (k, v) :: assocUpdate rest key nv

/-- One possible overload (class Overload, cqasm-resolver.cpp lines 15-50): a
tag of the payload type and the ordered parameter type list. -/
structure Overload (T : Type) where
  tag : T
  param_types : List Ty

/-- An ordered overload set (class OverloadResolver, cqasm-resolver.cpp lines
60-104): the overloads vector in registration order. -/
structure OverloadResolver (T : Type) where
  overloads : List (Overload T)

/-- Registration (OverloadResolver::add_overload): appends at the back. -/
def OverloadResolver.add_overload (r : OverloadResolver T) (tag : T)
    (param_types : List Ty) : OverloadResolver T :=
  ⟨r.overloads ++ [⟨tag, param_types⟩]⟩

/-- The inner argument loop of OverloadResolver::resolve (cqasm-resolver.cpp
lines 87-96), walking the parameter types and arguments in parallel. For each
position the argument is promoted to the parameter type; the source then tests
the result with if (!promoted_arg.empty()) and on a NON-empty result sets
ok = false and breaks out (modelled by returning none); an empty result falls
through to promoted_args.add(promoted_arg), which is a no-operation for empty
values per the null guard of Any::add (cqasm-tree.hpp), so promoted_args stays
empty. Exhausting the loop returns the accumulated (empty) promoted_args. The
caller has already checked that the arity matches; if the parameter list were
shorter, param_type_at would throw std::out_of_range. Errors thrown by promote
propagate. -/
def resolveArgs : List Ty → List Val → Except Err (Option (List Val))
  | _, [] => .ok (some [])
  | [], _ :: _ => .error .outOfRange
  | t :: ts, a :: rest => do
      let promoted_arg ← promote a t
      match promoted_arg with
      | some _ => .ok none
      | none => resolveArgs ts rest

/-- The overload iteration of OverloadResolver::resolve, split out so that the
recursion is structural over the remaining overloads. -/
def resolveOverloadsLoop : List (Overload T) → List Val → Except Err (T × List Val)
  | [], _ => .error .overloadResolutionFailure
  | o :: rest, args =>
      if o.param_types.length ≠ args.length then resolveOverloadsLoop rest args
      else
        match resolveArgs o.param_types args with
        | .error e => .error e
        | .ok (some promoted_args) => .ok (o.tag, promoted_args)
        | .ok none => resolveOverloadsLoop rest args

/-- OverloadResolver::resolve (cqasm-resolver.cpp lines 82-102, identical in
the newer resolver translation unit src/unnamed/part_001 lines 114-134):
iterate the overloads in registration order, skip those whose parameter count
differs from the argument count, and run the inner argument loop; when the loop
completes with ok still true, return the overload tag with the accumulated
promoted_args; when every overload is rejected, throw
OverloadResolutionFailure. -/
def OverloadResolver.resolve (r : OverloadResolver T) (args : List Val) :
    Except Err (T × List Val) :=
  resolveOverloadsLoop r.overloads args

/-- Case-insensitive named overload table (class OverloadedNameResolver,
cqasm-resolver.cpp lines 110-161): an unordered_map from lowercased name to an
overload set. -/
structure OverloadedNameResolver (T : Type) where
  table : List (String × OverloadResolver T)

/-- OverloadedNameResolver::add_overload (lines 125-138): lowercase the name;
when no entry exists yet, insert a fresh resolver holding the one overload;
otherwise append the overload to the existing entry. -/
def OverloadedNameResolver.add_overload (r : OverloadedNameResolver T)
    (name : String) (tag : T) (param_types : List Ty) : OverloadedNameResolver T :=
  let name_lower := lowercase name
  match assocFind r.table name_lower with
  | none => ⟨r.table ++ [(name_lower, OverloadResolver.add_overload ⟨[]⟩ tag param_types)]⟩
  | some entry => ⟨assocUpdate r.table name_lower (entry.add_overload tag param_types)⟩

/-- OverloadedNameResolver::resolve (lines 148-159): lowercase the name; throw
NameResolutionFailure when it is absent, otherwise delegate to the overload
set. -/
def OverloadedNameResolver.resolve (r : OverloadedNameResolver T) (name : String)
    (args : List Val) : Except Err (T × List Val) :=
  match assocFind r.table (lowercase name) with
  | none => .error .nameResolutionFailure
  | some entry => entry.resolve args

/-- Table of name mappings (class MappingTable, declared in cqasm-resolver.hpp
and implemented in src/unnamed/part_001): an unordered_map from lowercased name
to the bound value. -/
structure MappingTable where
  table : List (String × Val)
deriving DecidableEq, Repr

/-- MappingTable::add (src/unnamed/part_001 lines 26-28):
table.insert(make_pair(lowercase(name), value)). std::unordered_map::insert
only inserts when the container does not already hold the key, so adding a
name that is already bound leaves the table unchanged. -/
def MappingTable.add (t : MappingTable) (name : String) (value : Val) :
    MappingTable :=
  match assocFind t.table (lowercase name) with
  | some _ => t
  | none => ⟨(lowercase name, value) :: t.table⟩

/-- MappingTable::resolve (src/unnamed/part_001 lines 34-41): find the
lowercased name; throw NameResolutionFailure when absent, otherwise return
Value(entry->second->clone()), a fresh deep copy of the bound node. The method
is const and does not modify the table. -/
def MappingTable.resolve (t : MappingTable) (name : String) : Except Err Val :=
  match assocFind t.table (lowercase name) with
  | none => .error .nameResolutionFailure
  | some v => .ok v.clone

/-- A constant-propagation function registered with the function table
(FunctionImpl, cqasm-resolver.hpp): maps the promoted argument list to a
value, possibly throwing. -/
def FunctionImpl : Type := List Val → Except Err Val

/-- Table of constant-propagation functions (class FunctionTable): an
OverloadedNameResolver with FunctionImpl payloads. -/
structure FunctionTable where
  resolver : OverloadedNameResolver FunctionImpl

/-- FunctionTable::call (cqasm-resolver.cpp lines 183-192): resolve name and
overload, then invoke the resolved implementation on the promoted argument
list. -/
def FunctionTable.call (f : FunctionTable) (name : String) (args : List Val) :
    Except Err Val := do
  let resolution ← f.resolver.resolve name args
  resolution.1 resolution.2

/-- Instruction descriptor (instruction::Instruction; its header is not under
src/, but cqasm-resolver.hpp documents the identical field set on
InstructionType and src/unnamed/part_001 reads exactly these fields): name,
parameter types, and the three permission flags. -/
structure Instruction where
  name : String
  param_types : List Ty
  allow_conditional : Bool
  allow_parallel : Bool
  allow_reused_qubits : Bool
deriving DecidableEq, Repr

/-- A resolved instruction node (semantic::Instruction from the semantic tree
schema, src/unnamed/part_011): the descriptor, the name as written, the bound
condition value and the operand list. Annotation data is not modelled. -/
structure SemInstruction where
  instruction : Instruction
  name : String
  condition : Val
  operands : List Val
deriving DecidableEq, Repr

/-- Table of supported instructions (class InstructionTable). -/
structure InstructionTable where
  resolver : OverloadedNameResolver Instruction

/-- InstructionTable::add (src/unnamed/part_001 lines 277-279): register the
descriptor under its name with its parameter types. -/
def InstructionTable.add (t : InstructionTable) (type : Instruction) :
    InstructionTable :=
  ⟨t.resolver.add_overload type.name type type.param_types⟩

/-- The qubit-uniqueness scan of InstructionTable::resolve (src/unnamed/
part_001 lines 311-322): walk the resolved operands in order; for every
QubitRefs operand insert each index into the used set, throwing QubitsNotUnique
on the first duplicate. Non-qubit operands are skipped. -/
def insertQubitIndices : List Int → List Int → Except Err (List Int)
  | [], used => .ok used
  | i :: rest, used =>
      if i ∈ used then .error .qubitsNotUnique
      else insertQubitIndices rest (i :: used)

/-- Operand walk of the qubit-uniqueness scan, threading the used set. -/
def checkQubitsUnique : List Val → List Int → Except Err (List Int)
  | [], used => .ok used
  | .qubitRefs idx :: rest, used => do
      let used2 ← insertQubitIndices idx used
      checkQubitsUnique rest used2
  | _ :: rest, used => checkQubitsUnique rest used

/-- InstructionTable::resolve (src/unnamed/part_001 lines 299-344). Steps, in
source order: resolve the name and overload (promoted argument list res_args);
when the descriptor forbids qubit reuse, run the uniqueness scan over res_args;
then handle the condition: when present, a descriptor with allow_conditional
false throws ConditionalExecutionNotSupported, otherwise the condition is
promoted to Bool and dereferenced by res_condition->as_const_bool() — an empty
promotion result makes that dereference throw std::out_of_range; a constant
false condition returns the empty Maybe (none), any other outcome binds the
condition; when no condition is present a constant true is bound. -/
def InstructionTable.resolve (tbl : InstructionTable) (name : String)
    (condition : Option Val) (args : List Val) :
    Except Err (Option SemInstruction) := do
  let resolved ← tbl.resolver.resolve name args
  let insn := resolved.1
  let res_args := resolved.2
  let _used ← if insn.allow_reused_qubits then Except.ok []
              else checkQubitsUnique res_args []
  match condition with
  | some c =>
      if insn.allow_conditional = false then
        .error .conditionalExecutionNotSupported
      else do
        let res_condition ← promote c Ty.bool
        match res_condition with
        | none => .error .outOfRange
        | some (.constBool b) =>
            if b = false then .ok none
            else .ok (some ⟨insn, name, .constBool b, res_args⟩)
        | some v => .ok (some ⟨insn, name, v, res_args⟩)
  | none => .ok (some ⟨insn, name, .constBool true, res_args⟩)

/-- Expression AST (the expression nodes of the AST schema, src/unnamed/
part_013): literals, matrix literal (a non-empty list of rows of cells),
identifier, indexation, function call, and the unary/binary operator nodes.
An index-list entry is encoded as a pair: (e, none) is an IndexItem with index
expression e, and (a, some b) is an IndexRange with first a and last b. -/
inductive Expr where
  | integerLiteral (value : Int)
  | floatLiteral (value : ℚ)
  | stringLiteral (value : String)
  | jsonLiteral (value : String)
  | matrixLiteral (rows : List (List Expr))
  | identifier (name : String)
  | indexation (expr : Expr) (indices : List (Expr × Option Expr))
  | functionCall (name : String) (args : List Expr)
  | negate (expr : Expr)
  | power (lhs rhs : Expr)
  | multiply (lhs rhs : Expr)
  | divide (lhs rhs : Expr)
  | add (lhs rhs : Expr)
  | subtract (lhs rhs : Expr)

/-- Mapping statement AST (ast::Mapping): the alias name and the aliased
expression. The C++ field alias is a Lean keyword, hence alias_name. -/
structure Mapping where
  alias_name : String
  expr : Expr

/-- Scope information of the analyzer (class Scope, src/cqasm-analyzer.cpp
lines 10-26): the mapping, function and instruction tables. -/
structure Scope where
  mappings : MappingTable
  functions : FunctionTable
  instruction_set : InstructionTable

/-- Downcast used by the real-matrix instantiation of analyze_matrix_helper
(val.template as with ElVal = values::ConstReal). -/
def asConstReal : Val → Option ℚ
  | .constReal r => some r
  | _ => none

/-- Downcast used by the complex-matrix instantiation of analyze_matrix_helper
(ElVal = values::ConstComplex). -/
def asConstComplex : Val → Option (ℚ × ℚ)
  | .constComplex re im => some (re, im)
  | _ => none

/-- The cell loop of AnalyzerHelper::analyze_matrix_helper
(src/cqasm-analyzer.cpp lines 444-455) over the row-major positions that
remain. For position k the source promotes vals[k] to the element type and
tests the result with if (auto val = ...): a non-empty result is downcast,
assigned into matrix.at(k / ncols + 1, k mod ncols + 1) when the downcast
succeeds and otherwise makes the helper return the empty value; an EMPTY
promotion result skips the body entirely, silently leaving the
zero-initialized default element in place. -/
def matrixFillLoop (elType : Ty) (extract : Val → Option ε) (vals : List Val)
    (ncols : Nat) : List Nat → Mat ε → Except Err (Option (Mat ε))
  | [], m => .ok (some m)
  | k :: ks, m => do
      let pv ← promote (vals.getD k (Val.constBool false)) elType
      match pv with
      | none => matrixFillLoop elType extract vals ncols ks m
      | some val =>
          match extract val with
          | none => .ok none
          | some x => do
              let m2 ← m.setE (k / ncols + 1) (k % ncols + 1) x
              matrixFillLoop elType extract vals ncols ks m2

/-- AnalyzerHelper::analyze_matrix_helper (src/cqasm-analyzer.cpp lines
439-457), one template instantiation: start from the zero-initialized
nrows × ncols matrix (MatLit(nrows, ncols)) and run the cell loop over all
row-major positions; on completion wrap the matrix in its value node. -/
def analyze_matrix_helper (elType : Ty) (extract : Val → Option ε)
    (mk : Mat ε → Val) (zero : ε) (nrows ncols : Nat) (vals : List Val) :
    Except Err (Option Val) := do
  let init : Mat ε := ⟨nrows, ncols, List.replicate (nrows * ncols) zero⟩
  let filled ← matrixFillLoop elType extract vals ncols
    (List.range (nrows * ncols)) init
  match filled with
  | none => .ok none
  | some m => .ok (some (mk m))

/-- The tail of AnalyzerHelper::analyze_matrix (src/cqasm-analyzer.cpp lines
409-431) after the cells have been evaluated: try the ConstRealMatrix
instantiation of the helper; a filled result is returned; otherwise try the
ConstComplexMatrix instantiation; a filled result is returned; otherwise throw
the AnalysisError for unsupported matrix literals. -/
def analyzeMatrixTail (nrows ncols : Nat) (vals : List Val) : Except Err Val := do
  let value ← analyze_matrix_helper Ty.real asConstReal Val.constRealMatrix
    (0 : ℚ) nrows ncols vals
  match value with
  | some v => .ok v
  | none => do
      let value2 ← analyze_matrix_helper Ty.complex asConstComplex
        Val.constComplexMatrix ((0 : ℚ), (0 : ℚ)) nrows ncols vals
      match value2 with
      | some v => .ok v
      | none => .error (.analysisError
          "only matrices of constant real or complex numbers are currently supported")

/-- Index chaining of AnalyzerHelper::analyze_index (src/cqasm-analyzer.cpp
lines 469-471): each parsed index idx is replaced by base.index[idx], using
the bound-checked vector access of the Any container. Parsed indices are
already checked to lie in the base range, so the toNat view is exact. -/
def chainIndices (base : List Int) : List Int → Except Err (List Int)
  | [] => .ok []
  | i :: rest => do
      match base.get? i.toNat with
      | none => .error .outOfRange
      | some v => do
          let vs ← chainIndices base rest
          .ok (v :: vs)

mutual

/-- AnalyzerHelper::analyze_expression (src/cqasm-analyzer.cpp lines 324-368):
dispatch on the AST node kind. Literals build the corresponding constants; a
matrix literal reads nrows from the row count and ncols from row 0 (the
bound-checked access rows[0] throws std::out_of_range when there are no rows,
which the parser precludes), evaluates the cells row-major with the
bound-checked items[col] access, and runs the real/complex helper cascade; an
identifier resolves through the scope mapping table; indexation evaluates the
base, which must be QubitRefs or BitRefs (anything else throws the
IndexationNotSupported AnalysisError), parses the index list against the
base's index count and chains the result through the base's own index list; a
function call evaluates its arguments and dispatches through the function
table, and the operator nodes lower to synthetic operator<sym> calls through
the same path (for unary minus the empty second operand is skipped by the null
guard of Any::add). AnalysisErrors get source context attached and are
rethrown; location annotation copies are not modelled. -/
def analyzeExpr (s : Scope) : Expr → Except Err Val
  | .integerLiteral v => .ok (.constInt v)
  | .floatLiteral v => .ok (.constReal v)
  | .stringLiteral v => .ok (.constString v)
  | .jsonLiteral v => .ok (.constJson v)
  | .matrixLiteral [] => .error .outOfRange
  | .matrixLiteral (r0 :: rest) => do
      let vals ← analyzeAllRows s r0.length (r0 :: rest)
      analyzeMatrixTail (r0 :: rest).length r0.length vals
  | .identifier name => s.mappings.resolve name
  | .indexation e indices => do
      let expr ← analyzeExpr s e
      match expr with
      | .qubitRefs idx => do
          let parsed ← analyzeIndexList s idx.length indices
          let mapped ← chainIndices idx parsed
          .ok (.qubitRefs mapped)
      | .bitRefs idx => do
          let parsed ← analyzeIndexList s idx.length indices
          let mapped ← chainIndices idx parsed
          .ok (.bitRefs mapped)
      | _ => .error (.analysisError "indexation is not supported for value of this type")
  | .functionCall name args => do
      let vals ← analyzeExprList s args
      s.functions.call name vals
  | .negate e => do
      let va ← analyzeExpr s e
      s.functions.call "operator-" [va]
  | .power a b => do
      let va ← analyzeExpr s a
      let vb ← analyzeExpr s b
      s.functions.call "operator**" [va, vb]
  | .multiply a b => do
      let va ← analyzeExpr s a
      let vb ← analyzeExpr s b
      s.functions.call "operator*" [va, vb]
  | .divide a b => do
      let va ← analyzeExpr s a
      let vb ← analyzeExpr s b
      s.functions.call "operator/" [va, vb]
  | .add a b => do
      let va ← analyzeExpr s a
      let vb ← analyzeExpr s b
      s.functions.call "operator+" [va, vb]
  | .subtract a b => do
      let va ← analyzeExpr s a
      let vb ← analyzeExpr s b
      s.functions.call "operator-" [va, vb]
termination_by e => (sizeOf e, 0)

/-- Argument evaluation loop of AnalyzerHelper::analyze_function (lines
551-555): evaluate each argument expression in order. -/
def analyzeExprList (s : Scope) : List Expr → Except Err (List Val)
  | [] => .ok []
  | e :: rest => do
      let v ← analyzeExpr s e
      let vs ← analyzeExprList s rest
      .ok (v :: vs)
termination_by l => (sizeOf l, 0)

/-- Cell evaluation of one matrix row (the inner column loop of
analyze_matrix, lines 403-407): exactly ncols cells are read through the
bound-checked items[col] access, so a row shorter than row 0 throws
std::out_of_range at the missing position and surplus cells of a longer row
are ignored. -/
def analyzeRowCells (s : Scope) : List Expr → Nat → Except Err (List Val)
  | _, 0 => .ok []
  | [], _ + 1 => .error .outOfRange
  | e :: rest, n + 1 => do
      let v ← analyzeExpr s e
      let vs ← analyzeRowCells s rest n
      .ok (v :: vs)
termination_by l _ => (sizeOf l, 0)

/-- Row loop of analyze_matrix (lines 403-407), concatenating the cell values
in row-major order. -/
def analyzeAllRows (s : Scope) (ncols : Nat) : List (List Expr) → Except Err (List Val)
  | [] => .ok []
  | r :: rest => do
      let vs ← analyzeRowCells s r ncols
      let vss ← analyzeAllRows s ncols rest
      .ok (vs ++ vss)
termination_by l => (sizeOf l, 0)

/-- AnalyzerHelper::analyze_as_const_int (src/cqasm-analyzer.cpp lines
383-390), with the analyze_as template instantiated at types::Int inlined
(line 377): evaluate the expression, promote the result to Int, then run
value->as_const_int(). The dereference of an EMPTY promotion result throws
std::out_of_range; a filled non-ConstInt result throws the AnalysisError
"constant integer expected". -/
def analyzeAsConstInt (s : Scope) (e : Expr) : Except Err Int := do
  let v ← analyzeExpr s e
  let value ← promote v Ty.int
  match value with
  | none => .error .outOfRange
  | some (.constInt n) => .ok n
  | some _ => .error (.analysisError "constant integer expected")
termination_by (sizeOf e, 1)

/-- AnalyzerHelper::analyze_index_list (src/cqasm-analyzer.cpp lines 498-546):
for a single IndexItem, evaluate it as a constant int and reject values below
0 or at least size with the index-out-of-range AnalysisError; for an
IndexRange, evaluate and bound-check first and last the same way, reject
first > last, and append the inclusive sequence first..last. -/
def analyzeIndexList (s : Scope) (size : Nat) :
    List (Expr × Option Expr) → Except Err (List Int)
  | [] => .ok []
  | (e, none) :: rest => do
      let index ← analyzeAsConstInt s e
      if index < 0 ∨ (size : Int) ≤ index then
        .error (.analysisError "index out of range")
      else do
        let tl ← analyzeIndexList s size rest
        .ok (index :: tl)
  | (e, some elast) :: rest => do
      let first ← analyzeAsConstInt s e
      if first < 0 ∨ (size : Int) ≤ first then
        .error (.analysisError "index out of range")
      else do
        let last ← analyzeAsConstInt s elast
        if last < 0 ∨ (size : Int) ≤ last then
          .error (.analysisError "index out of range")
        else if last < first then
          .error (.analysisError "last index is lower than first index")
        else do
          let tl ← analyzeIndexList s size rest
          .ok ((List.range (last - first + 1).toNat).map (fun k => first + k) ++ tl)
termination_by l => (sizeOf l, 0)

end

/-- Result state of AnalyzerHelper::analyze_qubits: the num_qubits field of the
semantic program node, the scope mapping table, and the accumulated error
messages. -/
structure QubitsResult where
  num_qubits : Int
  mappings : MappingTable
  errors : List String
deriving DecidableEq, Repr

/-- AnalyzerHelper::analyze_qubits (src/cqasm-analyzer.cpp lines 231-258; the
parse_ variant in src/unnamed/part_001 lines 531-558 is identical). Inside the
try block num_qubits defaults to 0, then analyze_as_const_int evaluates the
count expression; a count below 1 throws the AnalysisError
"invalid number of qubits" after num_qubits has already been assigned;
otherwise the special mappings q and b are installed as QubitRefs and BitRefs
over the indices 0 .. num_qubits - 1. The catch block absorbs AnalysisErrors
into the error list (location context is not modelled); every other exception
propagates out of the function. -/
def analyze_qubits (s : Scope) (count : Expr) : Except Err QubitsResult :=
  match analyzeAsConstInt s count with
  | .error (.analysisError msg) => .ok ⟨0, s.mappings, [msg]⟩
  | .error e => .error e
  | .ok n =>
      if n < 1 then .ok ⟨n, s.mappings, ["invalid number of qubits"]⟩
      else
        let all_qubits := (List.range n.toNat).map Int.ofNat
        .ok ⟨n,
          ((s.mappings.add "q" (.qubitRefs all_qubits)).add "b" (.bitRefs all_qubits)),
          []⟩

/-- AnalyzerHelper::analyze_mapping (src/cqasm-analyzer.cpp lines 274-276):
evaluate the aliased expression and bind it in the scope through
MappingTable::add. -/
def analyze_mapping (s : Scope) (m : Mapping) : Except Err Scope := do
  let v ← analyzeExpr s m.expr
  .ok { s with mappings := s.mappings.add m.alias_name v }

/-- Heap of tree nodes, used to make the pointer structure behind MappingTable
explicit for the aliasing claim about MappingTable::resolve: a stored Value is
a reference (index) into this heap, new nodes are allocated at the end, and
mutation writes through a reference. -/
structure Heap where
  objs : List Val
deriving DecidableEq, Repr

/-- Read through a reference (out-of-range references read a dummy node). -/
def Heap.get (h : Heap) (i : Nat) : Val :=
  h.objs.getD i (Val.constBool false)

/-- Mutate the node behind a reference in place. -/
def Heap.set (h : Heap) (i : Nat) (v : Val) : Heap :=
  ⟨h.objs.set i v⟩

/-- Allocate a new node, returning the extended heap and the fresh reference. -/
def Heap.alloc (h : Heap) (v : Val) : Heap × Nat :=
  (⟨h.objs ++ [v]⟩, h.objs.length)

/-- MappingTable on the heap view: names map to references into the heap. -/
structure MappingTableRef where
  table : List (String × Nat)
deriving DecidableEq, Repr

/-- MappingTable::resolve (src/unnamed/part_001 lines 34-41) on the heap view:
find the lowercased name, throwing NameResolutionFailure when it is absent;
otherwise return Value(entry->second->clone()). The clone() call (generated
tree code, not under src/; modelled from the spec as an independent deep copy)
allocates a fresh node holding a copy of the bound node, and that fresh
reference is returned. The method is const: the name table is left untouched
and no existing heap cell is written. -/
def MappingTableRef.resolve (t : MappingTableRef) (h : Heap) (name : String) :
    Except Err (Nat × Heap) :=
  match assocFind t.table (lowercase name) with
  | none => .error .nameResolutionFailure
  | some id =>
      let r := h.alloc ((h.get id).clone)
      .ok (r.2, r.1)

/-- Children vector of the tree::Any container (cqasm-tree.hpp lines 440-447):
a vector of shared pointers; the declared invariant is that the stored
pointers are non-null, which the Option element type makes checkable. -/
structure AnyC (α : Type) where
  vec : List (Option α)
deriving DecidableEq, Repr

/-- tree::Any::add for the pointer-taking overloads (cqasm-tree.hpp lines
450-462 for add(const T *ob, ssize_t pos) and lines 486-499 for
add(shared_ptr<T> &ob, ssize_t pos); tree::Many inherits both): when ob is
null the call returns immediately; otherwise the element is appended at the
back when pos is negative or at least the current size (the signed/unsigned
comparison is harmless because pos < 0 is tested first), and inserted at
position pos otherwise. -/
def AnyC.add (v : AnyC α) (ob : Option α) (pos : Int) : AnyC α :=
  match ob with
  | none => v
  | some x =>
      if pos < 0 ∨ (v.vec.length : Int) ≤ pos then ⟨v.vec ++ [some x]⟩
      else ⟨v.vec.insertIdx pos.toNat (some x)⟩

/-! Concrete inputs used by the evaluation theorems below. -/

/-- Empty analyzer scope: no mappings, functions or instructions registered. -/
def scope0 : Scope := ⟨⟨[]⟩, ⟨⟨[]⟩⟩, ⟨⟨[]⟩⟩⟩

/-- Scope with one mapping: r bound to QubitRefs over indices 10 and 20. -/
def scopeQ : Scope := ⟨⟨[("r", Val.qubitRefs [10, 20])]⟩, ⟨⟨[]⟩⟩, ⟨⟨[]⟩⟩⟩

/-- Scope with one mapping: x bound to ConstInt 1. -/
def scopeX : Scope := ⟨⟨[("x", Val.constInt 1)]⟩, ⟨⟨[]⟩⟩, ⟨⟨[]⟩⟩⟩

/-- Instruction descriptor: name x, one qubit parameter, conditional execution
allowed, parallel allowed, qubit reuse NOT allowed. -/
def insnX : Instruction := ⟨"x", [Ty.qubit], true, true, false⟩

/-- Instruction table holding just the x descriptor. -/
def insnTableX : InstructionTable := InstructionTable.add ⟨⟨[]⟩⟩ insnX

/-- Concrete 1 × 32 real row vector with entries 1..32, the legacy flattened
form of a 2 × 2 complex matrix (32 = 2 shifted left by 4). -/
def legacyVec32 : Mat ℚ := ⟨1, 32, (List.range 32).map (fun k => ((k : ℚ) + 1))⟩

/-- One registered overload, tag 0, taking a single Bool parameter. -/
def boolOverloadSet : OverloadResolver Nat :=
  OverloadResolver.add_overload ⟨[]⟩ 0 [Ty.bool]

/-- Concrete run for the mapping re-binding claim: analyze map statements
binding x to 1 and then x to 2, then look x up in the resulting scope. -/
def rebindLookup : Except Err Val := do
  let s1 ← analyze_mapping scope0 ⟨"x", Expr.integerLiteral 1⟩
  let s2 ← analyze_mapping s1 ⟨"x", Expr.integerLiteral 2⟩
  s2.mappings.resolve "x"

/-! Helper lemmas. -/

/-- A deep copy of a value node rebuilds the same structure: clone is the
identity on the pure value representation. -/
theorem clone_eq (v : Val) : v.clone = v := by
  cases v <;> rfl

/-- Reading below the length of the left list ignores an appended tail. -/
theorem listGetD_append_lt {α : Type} (l l2 : List α) (d : α) :
    ∀ i, i < l.length → (l ++ l2).getD i d = l.getD i d := by
  induction l with
  | nil => intro i h; simp at h
  | cons a tl ih =>
      intro i h
      cases i with
      | zero => rfl
      | succ n => exact ih n (by simp at h; omega)

/-- Reading the position right past a list returns the appended element. -/
theorem listGetD_append_len {α : Type} (l : List α) (x d : α) :
    (l ++ [x]).getD l.length d = x := by
  induction l with
  | nil => rfl
  | cons a tl ih => simp only [List.cons_append, List.length_cons]; exact ih

/-- Writing one position leaves reads at a different position unchanged. -/
theorem listGetD_set_ne {α : Type} (l : List α) (x d : α) :
    ∀ i j, j ≠ i → (l.set i x).getD j d = l.getD j d := by
  induction l with
  | nil => intro i j _; rfl
  | cons a tl ih =>
      intro i j hne
      cases i with
      | zero =>
          cases j with
          | zero => exact absurd rfl hne
          | succ m => rfl
      | succ n =>
          cases j with
          | zero => rfl
          | succ m => exact ih n m (by omega)

/-! Claim theorems. -/

/-- C1. The claim states that OverloadResolver::resolve returns the first
registered overload whose arity matches and for which every argument promotes
to the parameter type, together with the promoted arguments, failing with
OverloadResolutionFailure otherwise. The code behaves differently: promotion
of a ConstString argument to the Bool parameter fails (and, with the promote
of this source tree, every promotion returns the empty value), yet resolve
accepts the overload — the inner loop treats a non-empty promotion result as
failure — and returns an empty promoted-argument list instead of the promoted
arguments, where the claim predicts OverloadResolutionFailure. -/
theorem resolve_accepts_unpromotable_overload :
    promote (Val.constString "s") Ty.bool = .ok none ∧
    boolOverloadSet.resolve [Val.constString "s"] = .ok (0, []) := by
  constructor <;> rfl

/-- C2. The claim states that promote(v, type_of(v)) returns a non-empty value
structurally equal to v. In the code the switch computes such a copy into the
local retval, but the function ends with return Value(), so promotion of any
value to its own type returns the empty value — never the claimed copy. -/
theorem promote_to_own_type_returns_empty (v : Val) :
    promote v (type_of v) = .ok none := by
  cases v <;> rfl

/-- C3. The claim states that a qubit-count expression evaluating to the
constant 3 makes analysis bind q and b to full-register references over
0, 1, 2. In the code analyze_as_const_int promotes the evaluated count to Int
through the broken promote, receives the empty value, and dereferences it:
analyze_qubits propagates the resulting std::out_of_range (its catch handles
only AnalysisError), so analysis crashes and q and b are never bound. -/
theorem analyze_qubits_throws_out_of_range :
    analyze_qubits scope0 (Expr.integerLiteral 3) = .error Err.outOfRange := by
  simp [analyze_qubits, analyzeAsConstInt, analyzeExpr, promote, promoteRetval,
    Bind.bind, Except.bind]

/-- C4 counterexample. The claim states that a second map statement for the
same name re-binds it so that a later lookup returns the newly bound value.
Concretely binding x to 1, then x to 2, and resolving x returns ConstInt 1,
not the newly bound ConstInt 2: MappingTable::add uses unordered_map::insert,
which refuses keys that are already present. -/
theorem mapping_rebind_lookup_returns_first_value :
    rebindLookup = .ok (Val.constInt 1) ∧ rebindLookup ≠ .ok (Val.constInt 2) := by
  constructor <;>
    simp [rebindLookup, analyze_mapping, analyzeExpr, scope0, MappingTable.add,
      MappingTable.resolve, assocFind, lowercase, Val.clone, Bind.bind, Except.bind]

/-- C4 amended. Analyzing a second map statement for a name that is already
bound leaves the table unchanged (first-write-wins): when the name resolves to
w beforehand and the second map statement analyzes successfully, a subsequent
lookup still returns w. -/
theorem analyze_mapping_rebind_keeps_first_binding (s : Scope) (m : Mapping)
    (w : Val) (s2 : Scope)
    (hbound : s.mappings.resolve m.alias_name = .ok w)
    (hrun : analyze_mapping s m = .ok s2) :
    s2.mappings.resolve m.alias_name = .ok w := by
  unfold MappingTable.resolve at hbound ⊢
  cases hfind : assocFind s.mappings.table (lowercase m.alias_name) with
  | none => rw [hfind] at hbound; exact absurd hbound (by simp)
  | some v0 =>
      rw [hfind] at hbound
      unfold analyze_mapping at hrun
      cases hae : analyzeExpr s m.expr with
      | error e =>
          rw [hae] at hrun
          simp [Bind.bind, Except.bind] at hrun
      | ok v =>
          rw [hae] at hrun
          simp only [Bind.bind, Except.bind, Except.ok.injEq] at hrun
          have hmt : s2.mappings = s.mappings := by
            rw [← hrun]
            simp [MappingTable.add, hfind]
          rw [hmt, hfind]
          exact hbound

/-- C4 amended, witness: in the scope binding x to ConstInt 1, analyzing
map 2, x leaves lookup of x at ConstInt 1. -/
theorem analyze_mapping_rebind_keeps_first_binding_witness :
    scopeX.mappings.resolve "x" = .ok (Val.constInt 1) :=
  analyze_mapping_rebind_keeps_first_binding scopeX ⟨"x", Expr.integerLiteral 2⟩
    (Val.constInt 1) scopeX (by rfl)
    (by simp [analyze_mapping, analyzeExpr, scopeX, MappingTable.add, assocFind,
      lowercase, Bind.bind, Except.bind])

/-- C5. The claim states that an instruction whose descriptor allows
conditional execution and whose condition promotes to constant false is
dropped silently, even when operands reuse a qubit index against
allow_reused_qubits = false. In the code the qubit-reuse scan runs first but
sees the empty promoted operand list (so the reused index 0 is never
detected), and the condition handling then dereferences the empty result of
promoting the condition to Bool, throwing std::out_of_range instead of
returning the empty Maybe. -/
theorem instruction_false_condition_throws_out_of_range :
    insnTableX.resolve "x" (some (Val.constBool false)) [Val.qubitRefs [0, 0]] =
      .error Err.outOfRange := by
  rfl

/-- C6. The claim states that a matrix cell that fails to promote to Real
makes the ConstRealMatrix attempt fail, falling back to ConstComplexMatrix and
then to the InvalidMatrixLiteral error, and that a failing cell is never
replaced by a default element. In the code the helper skips the assignment
whenever promotion returns the empty value (and promote always does), so a
1 × 1 matrix literal holding the string "x" analyzes successfully to the
zero-initialized ConstRealMatrix with its default element 0 instead of
failing. -/
theorem analyze_matrix_defaults_failed_cells_to_zero :
    analyzeExpr scope0 (Expr.matrixLiteral [[Expr.stringLiteral "x"]]) =
      .ok (Val.constRealMatrix ⟨1, 1, [0]⟩) := by
  simp [analyzeExpr, analyzeAllRows, analyzeRowCells, analyzeMatrixTail,
    analyze_matrix_helper, matrixFillLoop, promote, promoteRetval,
    Bind.bind, Except.bind, List.range, List.range.loop]

/-- C7. The claim states that indexing a QubitRefs base with the in-range
single index 1 replaces it by the base's own entry at that position. In the
code each index item goes through analyze_as_const_int, whose promote-to-Int
always returns the empty value; the dereference of that empty value throws
std::out_of_range, so indexing a two-qubit base with index 1 crashes instead
of returning the chained reference. -/
theorem analyze_index_throws_out_of_range :
    analyzeExpr scopeQ (Expr.indexation (Expr.identifier "r")
        [(Expr.integerLiteral 1, none)]) = .error Err.outOfRange := by
  simp [analyzeExpr, analyzeIndexList, analyzeAsConstInt, scopeQ,
    MappingTable.resolve, assocFind, lowercase, Val.clone, promote, promoteRetval,
    Bind.bind, Except.bind]

/-- C8. The claim states that promoting a 1 × 32 ConstRealMatrix to
ComplexMatrix with dimensions 2 and 2 yields the 2 × 2 ConstComplexMatrix
whose entries pair up the source elements, all accesses 1-indexed. In the code
the legacy flatten loop starts its running column counter at 0 and passes it
directly to the 1-based Matrix::at, so the very first read is at(1, 0) and
promote throws std::range_error instead of returning the flattened matrix. -/
theorem promote_legacy_flatten_throws_range_error :
    promote (Val.constRealMatrix legacyVec32) (Ty.complexMatrix 2 2) =
      .error Err.rangeError := by
  rfl

/-- C9. Calling the pointer-taking add overloads of the Any (and Many) child
container with a null pointer is a no-operation — the container is returned
unchanged — and add never stores a null child: when every stored child is
non-null beforehand, every child after any add is still non-null. -/
theorem any_add_null_is_noop_and_no_null_stored (α : Type) (v : AnyC α)
    (ob : Option α) (pos : Int) (hv : ∀ x ∈ v.vec, x.isSome) :
    AnyC.add v none pos = v ∧ ∀ x ∈ (AnyC.add v ob pos).vec, x.isSome := by
  refine ⟨rfl, ?_⟩
  cases ob with
  | none => exact hv
  | some y =>
      simp only [AnyC.add]
      split
      · intro x hx
        rcases List.mem_append.mp hx with h | h
        · exact hv x h
        · simp only [List.mem_singleton] at h
          subst h
          rfl
      · rename_i hcond
        intro x hx
        rw [List.mem_insertIdx] at hx
        · rcases hx with h | h
          · subst h; rfl
          · exact hv x h
        · push_neg at hcond
          omega

/-- C9 witness: on the container holding the single child 1, adding null is a
no-operation and inserting 2 at position 0 stores no null child. -/
theorem any_add_null_is_noop_and_no_null_stored_witness :
    AnyC.add ⟨[some (1 : Nat)]⟩ none 0 = (⟨[some 1]⟩ : AnyC Nat) ∧
    ∀ x ∈ (AnyC.add (⟨[some (1 : Nat)]⟩ : AnyC Nat) (some 2) 0).vec, x.isSome :=
  any_add_null_is_noop_and_no_null_stored Nat ⟨[some 1]⟩ (some 2) 0 (by decide)

/-- C10. MappingTable::resolve fails with NameResolutionFailure exactly for
unknown names; for a bound name it returns a freshly allocated independent
clone of the bound node: the clone's content equals the binding, the returned
reference differs from the stored one, mutating the returned node afterwards
leaves the table's binding unchanged, and no pre-existing heap cell (in
particular no stored binding) is modified by resolve itself. -/
theorem mapping_resolve_returns_independent_clone (t : MappingTableRef)
    (h : Heap) (name : String) :
    (assocFind t.table (lowercase name) = none →
      t.resolve h name = .error Err.nameResolutionFailure) ∧
    (∀ id, assocFind t.table (lowercase name) = some id → id < h.objs.length →
      ∃ nid h2, t.resolve h name = .ok (nid, h2) ∧
        h2.get nid = h.get id ∧
        nid ≠ id ∧
        (∀ w, (h2.set nid w).get id = h.get id) ∧
        (∀ j, j < h.objs.length → h2.get j = h.get j)) := by
  constructor
  · intro hnone
    simp [MappingTableRef.resolve, hnone]
  · intro id hfound hid
    refine ⟨h.objs.length, ⟨h.objs ++ [(h.get id).clone]⟩, ?_, ?_, ?_, ?_, ?_⟩
    · simp [MappingTableRef.resolve, hfound, Heap.alloc]
    · simp [Heap.get, listGetD_append_len, clone_eq]
    · omega
    · intro w
      simp only [Heap.set, Heap.get]
      rw [listGetD_set_ne _ _ _ _ _ (by omega)]
      exact listGetD_append_lt _ _ _ id hid
    · intro j hj
      simp only [Heap.get]
      exact listGetD_append_lt _ _ _ j hj

/-- C10 witness: on a heap holding the single node ConstInt 7 referenced by
the mapping y, resolve returns a fresh reference whose content equals the
binding, distinct from the stored reference, and mutating through it leaves
the binding unchanged. -/
theorem mapping_resolve_returns_independent_clone_witness :
    ∃ nid h2,
      MappingTableRef.resolve ⟨[("y", 0)]⟩ ⟨[Val.constInt 7]⟩ "y" = .ok (nid, h2) ∧
      h2.get nid = Heap.get ⟨[Val.constInt 7]⟩ 0 ∧
      nid ≠ 0 ∧
      (∀ w, (h2.set nid w).get 0 = Heap.get ⟨[Val.constInt 7]⟩ 0) ∧
      (∀ j, j < (Heap.mk [Val.constInt 7]).objs.length →
        h2.get j = Heap.get ⟨[Val.constInt 7]⟩ j) :=
  (mapping_resolve_returns_independent_clone ⟨[("y", 0)]⟩ ⟨[Val.constInt 7]⟩ "y").2
    0 (by rfl) (by decide)

end Cqasm
